import Mathlib

/-!
Verification of the currency-aware monetary value type of django-money
(djmoney/money.py) against its specification.

The embedding translates the source module:
* Python decimal.Decimal (the external exact-decimal type the source stores
  amounts in) is modelled by the pair type Dec below: coefficient and scale,
  value m / 10 ^ s, with exact arithmetic.  This matches Python semantics for
  every amount whose coefficient fits the decimal context precision; the
  claims under study only concern such amounts.
* Process-wide configuration (djmoney.settings and django.conf.settings) is
  threaded explicitly as a Settings record.
* The currency registry, the conversion hook (djmoney.contrib.exchange,
  repository code outside src) and the base-class arithmetic (moneyed,
  external) are modelled from the spec where their behaviour decides a claim;
  each such definition says so in its doc comment.
* Mutation claims use a small heap model (a list of Money records addressed
  by position) layered over the pure functions.
-/

namespace DjMoney

/-- Python str.upper for the ASCII strings in scope (currency codes and
locale tags). -/
def upper (s : String) : String := ⟨s.data.map Char.toUpper⟩

/-- Exact decimal number: value m / 10 ^ s, i.e. Python decimal.Decimal with
coefficient m and exponent -s.  The scale s may be negative (Python keeps
exponents such as E+1 after rounding to a negative digit count). -/
structure Dec where
  m : Int
  s : Int
deriving DecidableEq, Repr

/-- Decimal made from a Python int: Decimal of its decimal string, exact,
scale 0. -/
def Dec.ofInt (n : Int) : Dec := ⟨n, 0⟩

/-- Rational value of a decimal. -/
def Dec.val (d : Dec) : ℚ := (d.m : ℚ) * (10 : ℚ) ^ (-d.s)

/-- Numeric equality of two decimals, as Python Decimal equality compares:
align both coefficients to the larger scale and compare. -/
def Dec.numEq (a b : Dec) : Prop :=
  a.m * 10 ^ (max a.s b.s - a.s).toNat = b.m * 10 ^ (max a.s b.s - b.s).toNat

instance (a b : Dec) : Decidable (Dec.numEq a b) :=
  inferInstanceAs (Decidable (_ = _))

/-- Truncating (toward zero) division of an integer by a positive natural. -/
def tdivNat (a : Int) (b : Nat) : Int :=
  if 0 ≤ a then ((a.toNat / b : Nat) : Int) else -(((-a).toNat / b : Nat) : Int)

/-- Python math.trunc on a Decimal: drop the fractional part, toward zero. -/
def Dec.trunc (d : Dec) : Int :=
  if d.s ≤ 0 then d.m * 10 ^ (-d.s).toNat else tdivNat d.m (10 ^ d.s.toNat)

/-- Integer division by a positive divisor rounding half to even. -/
def halfEvenDiv (a : Int) (b : Nat) : Int :=
  if 2 * Int.emod a (b : Int) < (b : Int) then Int.ediv a (b : Int)
  else if (b : Int) < 2 * Int.emod a (b : Int) then Int.ediv a (b : Int) + 1
  else if Int.emod (Int.ediv a (b : Int)) 2 = 0 then Int.ediv a (b : Int)
  else Int.ediv a (b : Int) + 1

/-- Python round(d, n) on a Decimal: quantize to n fractional digits with the
context rounding ROUND_HALF_EVEN; when n exceeds the current scale the
coefficient is padded with zeros (the exponent still becomes -n). -/
def Dec.roundHE (d : Dec) (n : Int) : Dec :=
  if d.s ≤ n then ⟨d.m * 10 ^ (n - d.s).toNat, n⟩
  else ⟨halfEvenDiv d.m (10 ^ (d.s - n).toNat), n⟩

/-- Python round(d) with no digit count: the nearest integer, half to even
(returned as a Python int). -/
def Dec.roundHEInt (d : Dec) : Int :=
  if d.s ≤ 0 then d.m * 10 ^ (-d.s).toNat else halfEvenDiv d.m (10 ^ d.s.toNat)

/-- Decimal addition: exact, result at the larger scale (the ideal exponent of
Python decimal addition). -/
def Dec.add (a b : Dec) : Dec :=
  ⟨a.m * 10 ^ (max a.s b.s - a.s).toNat + b.m * 10 ^ (max a.s b.s - b.s).toNat,
   max a.s b.s⟩

/-- Decimal subtraction: exact, result at the larger scale. -/
def Dec.sub (a b : Dec) : Dec :=
  ⟨a.m * 10 ^ (max a.s b.s - a.s).toNat - b.m * 10 ^ (max a.s b.s - b.s).toNat,
   max a.s b.s⟩

/-- Currency: an interned identifier looked up by code (external moneyed
type; only the code is observed by the code under study). -/
structure Currency where
  code : String
deriving DecidableEq, Repr

/-- Modelled from the spec: the external currency registry (moneyed
get_currency), a lookup from code string to Currency; unknown codes fail
resolution.  Modelled as the list of registered codes. -/
def get_currency (registry : List String) (code : String) : Option Currency :=
  if registry.contains code then some ⟨code⟩ else none

/-- The process-wide configuration the source reads: djmoney.settings
DECIMAL_PLACES (a number), DECIMAL_PLACES_PER_CURRENCY and
DISPLAY_DECIMAL_PLACES_PER_CURRENCY (dicts when configured, anything else
otherwise: Option of an association list here), and django settings
AUTO_CONVERT_MONEY (absent defaults to False: plain Bool here). -/
structure Settings where
  DECIMAL_PLACES : Nat
  DECIMAL_PLACES_PER_CURRENCY : Option (List (String × Nat))
  DISPLAY_DECIMAL_PLACES_PER_CURRENCY : Option (List (String × Nat))
  AUTO_CONVERT_MONEY : Bool

/-- The Money value object: fields assigned by Money.__init__. -/
structure Money where
  amount : Dec
  currency : Currency
  amount_decimal_places : Nat
  display_decimal_places : Nat
deriving DecidableEq, Repr

/-- The decimal-places override resolution from the body of Money.__init__:
a single try block holding both dict lookups, with except (IndexError,
KeyError): pass.  A KeyError in the first (amount) lookup aborts the block,
so the display lookup is then never executed; a KeyError in the second leaves
the already-assigned amount override in place.  Non-dict settings values skip
their lookup silently.  Returns (amount_decimal_places,
display_decimal_places). -/
def resolveDecimalPlaces (dflt : Nat) (amountMap displayMap : Option (List (String × Nat)))
    (code : String) : Nat × Nat :=
  match amountMap with
  | some am =>
    match am.lookup code with
    | none => (dflt, dflt)
    | some a =>
      match displayMap with
      | some dm =>
        match dm.lookup code with
        | none => (a, dflt)
        | some d => (a, d)
      | none => (a, dflt)
  | none =>
    match displayMap with
    | some dm =>
      match dm.lookup code with
      | none => (dflt, dflt)
      | some d => (dflt, d)
    | none => (dflt, dflt)

/-- Money.__init__ after the currency has been resolved to a Currency
instance: resolve the decimal-places overrides, truncate the amount toward
zero to an integral value when the resolved amount_decimal_places is 0
(amount = Decimal(math.trunc(amount))), and store the fields. -/
def mkMoneyCore (cfg : Settings) (a0 : Dec) (c : Currency) : Money :=
  let r := resolveDecimalPlaces cfg.DECIMAL_PLACES cfg.DECIMAL_PLACES_PER_CURRENCY
      cfg.DISPLAY_DECIMAL_PLACES_PER_CURRENCY c.code
  let a := if r.1 = 0 then Dec.ofInt (Dec.trunc a0) else a0
  ⟨a, c, r.1, r.2⟩

/-- Amount argument of Money.__init__: already a Decimal, or a Python int.
A non-Decimal input passes through Decimal(str(amount)); for an int that is
its exact decimal string.  (Floating-point inputs go through their shortest
round-trip string; binary floating point is outside this embedding.) -/
inductive AmountInput where
  | dec : Dec → AmountInput
  | int : Int → AmountInput
deriving DecidableEq

def decOfAmount : AmountInput → Dec
  | .dec d => d
  | .int n => Dec.ofInt n

/-- Currency argument of Money.__init__: a Currency instance or a code
string. -/
inductive CurrencyInput where
  | cur : Currency → CurrencyInput
  | code : String → CurrencyInput
deriving DecidableEq

inductive MoneyError where
  | currencyMismatch
  | unknownCurrency
deriving DecidableEq, Repr

instance {ε α : Type} [DecidableEq ε] [DecidableEq α] : DecidableEq (Except ε α) := fun a b =>
  match a, b with
  | .ok x, .ok y =>
    if h : x = y then isTrue (by rw [h]) else isFalse (by intro hh; cases hh; exact h rfl)
  | .error x, .error y =>
    if h : x = y then isTrue (by rw [h]) else isFalse (by intro hh; cases hh; exact h rfl)
  | .ok _, .error _ => isFalse (by intro hh; cases hh)
  | .error _, .ok _ => isFalse (by intro hh; cases hh)

/-- The module constant DEFAULT_CURRENCY_CODE = XYZ. -/
def DEFAULT_CURRENCY_CODE : String := "XYZ"

/-- Python default arguments of Money.__init__: amount = Decimal of the text
zero point zero, i.e. coefficient 0 at scale 1. -/
def defaultAmount : AmountInput := .dec ⟨0, 1⟩

def defaultCurrency : CurrencyInput := .code DEFAULT_CURRENCY_CODE

/-- Money.__init__: a code string is uppercased and resolved against the
registry (failing on unknown codes); then mkMoneyCore stores the fields. -/
def mkMoney (cfg : Settings) (registry : List String) (amount : AmountInput)
    (currency : CurrencyInput) : Except MoneyError Money :=
  match currency with
  | .cur c => .ok (mkMoneyCore cfg (decOfAmount amount) c)
  | .code s =>
    match get_currency registry (upper s) with
    | some c => .ok (mkMoneyCore cfg (decOfAmount amount) c)
    | none => .error .unknownCurrency

/-- A django F column placeholder (an opaque column reference). -/
inductive FExpr where
  | col : String → FExpr
deriving DecidableEq

/-- Modelled from the spec: the deferred persistence-layer expression produced
by an F placeholder's reflected operator with the Money value as the
right-hand operand.  Money never evaluates it; it is an opaque value here. -/
inductive DeferredExpr where
  | radd : FExpr → Money → DeferredExpr
  | rsub : FExpr → Money → DeferredExpr
  | rmul : FExpr → Money → DeferredExpr
  | rtruediv : FExpr → Money → DeferredExpr
deriving DecidableEq

/-- Right operand of Money.__add__ and Money.__sub__: an F placeholder or a
Money.  (Other operand types raise in the external base class and no claim
concerns them.) -/
inductive AddOperand where
  | f : FExpr → AddOperand
  | money : Money → AddOperand

inductive AddResult where
  | deferred : DeferredExpr → AddResult
  | money : Money → AddResult
deriving DecidableEq

/-- src maybe_convert: when settings.AUTO_CONVERT_MONEY is true, every call
invokes convert_money (repository code outside src, modelled from the spec as
an injected total function Money to Money in the target currency: the hook);
otherwise the value is returned unchanged.  The Bool instrumentation records
whether the hook was invoked; the Money component is exactly the source's
return value. -/
def maybe_convert (cfg : Settings) (hook : Money → Currency → Money)
    (value : Money) (currency : Currency) : Money × Bool :=
  if cfg.AUTO_CONVERT_MONEY then (hook value currency, true) else (value, false)

/-- Modelled from the spec: the base-class addition (moneyed, external) fails
with a currency mismatch when the operands' currencies differ, and otherwise
constructs a fresh instance via the subclass constructor with the summed
amount and the left operand's currency (spec: section 3 Lifecycle,
section 4.2). -/
def defaultMoneyAdd (cfg : Settings) (a b : Money) : Except MoneyError Money :=
  if a.currency = b.currency then
    .ok (mkMoneyCore cfg (Dec.add a.amount b.amount) a.currency)
  else .error .currencyMismatch

/-- Modelled from the spec: base-class subtraction, as defaultMoneyAdd. -/
def defaultMoneySub (cfg : Settings) (a b : Money) : Except MoneyError Money :=
  if a.currency = b.currency then
    .ok (mkMoneyCore cfg (Dec.sub a.amount b.amount) a.currency)
  else .error .currencyMismatch

/-- Money.__add__: an F operand delegates to the placeholder's __radd__;
otherwise the operand passes through maybe_convert and then base-class
addition.  The Bool carries the hook-invocation record of maybe_convert. -/
def Money.add (cfg : Settings) (hook : Money → Currency → Money) (self : Money)
    (other : AddOperand) : Except MoneyError AddResult × Bool :=
  match other with
  | .f f => (.ok (.deferred (.radd f self)), false)
  | .money m =>
    let c := maybe_convert cfg hook m self.currency
    ((defaultMoneyAdd cfg self c.1).map AddResult.money, c.2)

/-- Money.__sub__, as Money.add with __rsub__ and base-class subtraction. -/
def Money.sub (cfg : Settings) (hook : Money → Currency → Money) (self : Money)
    (other : AddOperand) : Except MoneyError AddResult × Bool :=
  match other with
  | .f f => (.ok (.deferred (.rsub f self)), false)
  | .money m =>
    let c := maybe_convert cfg hook m self.currency
    ((defaultMoneySub cfg self c.1).map AddResult.money, c.2)

/-- Right operand of Money.__mul__ and Money.__truediv__: an F placeholder or
a dimensionless number (as its exact decimal value). -/
inductive MulOperand where
  | f : FExpr → MulOperand
  | num : Dec → MulOperand

/-- Result of Money.__mul__ or Money.__truediv__.  The superMul and superDiv
constructors stand for the delegation to the external base class (moneyed,
outside this repository); no claim concerns the delegated value, so it stays
opaque: the constructor records exactly the call made. -/
inductive MulResult where
  | deferred : DeferredExpr → MulResult
  | superMul : Money → Dec → MulResult
  | superDiv : Money → Dec → MulResult
deriving DecidableEq

/-- Money.__mul__: an F operand delegates to the placeholder's __rmul__;
otherwise the call goes to the base class. -/
def Money.mul (self : Money) (other : MulOperand) : MulResult :=
  match other with
  | .f f => .deferred (.rmul f self)
  | .num d => .superMul self d

/-- Money.__truediv__: an F operand delegates to the placeholder's
__rtruediv__; otherwise the call goes to the base class. -/
def Money.truediv (self : Money) (other : MulOperand) : MulResult :=
  match other with
  | .f f => .deferred (.rtruediv f self)
  | .num d => .superDiv self d

/-- Money.__round__: round the amount (Python round: half to even; with no
digit count it yields the nearest int) and rebuild through the class
constructor with the same currency, so the new instance re-resolves its
precision settings. -/
def Money.round (cfg : Settings) (self : Money) (n : Option Int) : Money :=
  let a := match n with
    | some k => Dec.roundHE self.amount k
    | none => Dec.ofInt (Dec.roundHEInt self.amount)
  mkMoneyCore cfg a self.currency

/-- src get_current_locale after the external language-to-locale
canonicalization (django translation.to_locale, outside this repository; the
spec scopes the core to consuming a resolved locale string): takes the
canonical locale tag and the table of known formatting definitions.  Returns
the tag itself when its uppercasing is known, else the uppercased doubled
variant when known, else the empty string. -/
def get_current_locale (locale : String) (formatting_definitions : List String) : String :=
  if formatting_definitions.contains (upper locale) then locale
  else
    let doubled := upper (locale ++ "_" ++ locale)
    if formatting_definitions.contains doubled then doubled else ""

/-- The display-precision resolution rule as claim C5 words it: the display
mapping alone decides — the override when the currency code is present in it,
the class-level default otherwise. -/
def displayResolutionClaim (dflt : Nat) (displayMap : Option (List (String × Nat)))
    (code : String) : Nat :=
  match displayMap with
  | some dm => (dm.lookup code).getD dflt
  | none => dflt

/-- The locale-resolution rule as claim C6 words it: the case-normalized
canonical tag when it is in the table, else the doubled-region uppercased
variant when present, else empty. -/
def localeResolutionClaim (locale : String) (formatting_definitions : List String) : String :=
  if formatting_definitions.contains (upper locale) then upper locale
  else
    let doubled := upper (locale ++ "_" ++ locale)
    if formatting_definitions.contains doubled then doubled else ""

/-- Heap model for the mutation claims: Python objects live in a heap (a list
of Money records addressed by position); attribute assignment would replace a
cell in place; constructing a Money allocates a fresh cell at the end. -/
def heapAlloc (h : List Money) (m : Money) : List Money × Nat :=
  (h ++ [m], h.length)

/-- Calling round(a, n) on the object at address i: read the receiver's
fields, compute the new Money (the source method body assigns no attribute of
self), allocate it.  An invalid address leaves the heap unchanged. -/
def heapRound (cfg : Settings) (h : List Money) (i : Nat) (n : Option Int) :
    List Money × Option Nat :=
  match h[i]? with
  | some self =>
    let p := heapAlloc h (Money.round cfg self n)
    (p.1, some p.2)
  | none => (h, none)

/-- Adding the Money objects at addresses i and j: on success the fresh result
is allocated; on a currency mismatch the exception propagates and no cell
changes. -/
def heapAdd (cfg : Settings) (hook : Money → Currency → Money) (h : List Money)
    (i j : Nat) : List Money × Option Nat :=
  match h[i]?, h[j]? with
  | some a, some b =>
    match (Money.add cfg hook a (.money b)).1 with
    | .ok (.money r) =>
      let p := heapAlloc h r
      (p.1, some p.2)
    | _ => (h, none)
  | _, _ => (h, none)

/-- Subtracting the Money objects at addresses i and j, as heapAdd. -/
def heapSub (cfg : Settings) (hook : Money → Currency → Money) (h : List Money)
    (i j : Nat) : List Money × Option Nat :=
  match h[i]?, h[j]? with
  | some a, some b =>
    match (Money.sub cfg hook a (.money b)).1 with
    | .ok (.money r) =>
      let p := heapAlloc h r
      (p.1, some p.2)
    | _ => (h, none)
  | _, _ => (h, none)


/-! Supporting lemmas. -/

lemma castPow10 (k : Nat) : ((10 ^ k : Nat) : Int) = (10 : Int) ^ k := by
  push_cast
  rfl

lemma roundHE_pad (m s n : Int) (h : s ≤ n) :
    Dec.roundHE ⟨m, s⟩ n = ⟨m * 10 ^ (n - s).toNat, n⟩ := by
  unfold Dec.roundHE
  dsimp only
  rw [if_pos h]

lemma roundHE_cut (m s n : Int) (h : n < s) :
    Dec.roundHE ⟨m, s⟩ n = ⟨halfEvenDiv m (10 ^ (s - n).toNat), n⟩ := by
  unfold Dec.roundHE
  dsimp only
  rw [if_neg (not_le.mpr h)]

lemma trunc_int_scale (m s : Int) (h : s ≤ 0) :
    Dec.trunc ⟨m, s⟩ = m * 10 ^ (-s).toNat := by
  unfold Dec.trunc
  dsimp only
  rw [if_pos h]

lemma trunc_frac_scale (m s : Int) (h : 0 < s) :
    Dec.trunc ⟨m, s⟩ = tdivNat m (10 ^ s.toNat) := by
  unfold Dec.trunc
  dsimp only
  rw [if_neg (not_le.mpr h)]

lemma roundHE_scale (d : Dec) (n : Int) : (Dec.roundHE d n).s = n := by
  unfold Dec.roundHE
  split <;> rfl

lemma roundHE_of_scale_eq (d : Dec) (n : Int) (h : d.s = n) : Dec.roundHE d n = d := by
  obtain ⟨dm, ds⟩ := d
  simp only at h
  subst h
  rw [roundHE_pad dm ds ds (le_refl ds), Int.sub_self]
  norm_num

lemma roundHE_idem (d : Dec) (n : Int) :
    Dec.roundHE (Dec.roundHE d n) n = Dec.roundHE d n :=
  roundHE_of_scale_eq _ _ (roundHE_scale d n)

lemma halfEvenDiv_mul_cancel (a : Int) (b : Nat) (hb : 0 < b) :
    halfEvenDiv (a * (b : Int)) b = a := by
  have hb' : ((b : Nat) : Int) ≠ 0 := by exact_mod_cast hb.ne'
  have hq : Int.ediv (a * (b : Int)) (b : Int) = a := Int.mul_ediv_cancel a hb'
  have hr : Int.emod (a * (b : Int)) (b : Int) = 0 := Int.mul_emod_left a (b : Int)
  have hbi : (0 : Int) < (b : Int) := by exact_mod_cast hb
  unfold halfEvenDiv
  rw [hq, hr]
  rw [if_pos (by omega : 2 * (0 : Int) < (b : Int))]

lemma tdivNat_mul_cancel (a : Int) (b : Nat) (hb : 0 < b) :
    tdivNat (a * (b : Int)) b = a := by
  unfold tdivNat
  by_cases ha : 0 ≤ a
  · have hab : 0 ≤ a * (b : Int) := mul_nonneg ha (by exact_mod_cast Nat.zero_le b)
    rw [if_pos hab]
    rcases Int.eq_ofNat_of_zero_le ha with ⟨n, hn⟩
    subst hn
    rw [← Int.natCast_mul, Int.toNat_natCast, Nat.mul_div_cancel n hb]
  · have ha' : a < 0 := by omega
    have hab : a * (b : Int) < 0 :=
      mul_neg_of_neg_of_pos ha' (by exact_mod_cast hb)
    rw [if_neg (by omega)]
    have hneg : -(a * (b : Int)) = (-a) * (b : Int) := by ring
    rw [hneg]
    rcases Int.eq_ofNat_of_zero_le (by omega : (0 : Int) ≤ -a) with ⟨n, hn⟩
    rw [hn, ← Int.natCast_mul, Int.toNat_natCast, Nat.mul_div_cancel n hb]
    omega

/-- Key step for rounding idempotence through a zero-decimal constructor:
rounding the truncation of an already-rounded decimal to the same digit count
and truncating again gives the original truncation back. -/
lemma trunc_roundHE_ofInt_trunc (e : Dec) (n : Int) (h : e.s = n) :
    Dec.trunc (Dec.roundHE (Dec.ofInt (Dec.trunc e)) n) = Dec.trunc e := by
  obtain ⟨em, es⟩ := e
  simp only at h
  subst h
  unfold Dec.ofInt
  rcases lt_trichotomy es 0 with hn | hn | hn
  · rw [trunc_int_scale em es (le_of_lt hn)]
    rw [roundHE_cut _ 0 es hn, Int.zero_sub]
    rw [← castPow10 (-es).toNat,
      halfEvenDiv_mul_cancel em _ (pow_pos (by norm_num) _)]
    rw [trunc_int_scale em es (le_of_lt hn), castPow10]
  · subst hn
    rw [trunc_int_scale em 0 (le_refl 0)]
    rw [roundHE_pad _ 0 0 (le_refl 0), Int.sub_zero]
    rw [trunc_int_scale _ 0 (le_refl 0)]
    norm_num
  · rw [trunc_frac_scale em es hn]
    rw [roundHE_pad _ 0 es (le_of_lt hn), Int.sub_zero]
    rw [trunc_frac_scale _ es hn]
    rw [← castPow10 es.toNat,
      tdivNat_mul_cancel _ _ (pow_pos (by norm_num) _)]

lemma natLtDivSuccMul (a b : Nat) (hb : 0 < b) : a < (a / b + 1) * b := by
  have h1 := Nat.div_add_mod a b
  have h2 := Nat.mod_lt a hb
  nlinarith [h1, h2]

lemma tdivNat_nonneg_eq (a : Int) (b : Nat) (h : 0 ≤ a) :
    tdivNat a b = ((a.toNat / b : Nat) : Int) := by
  unfold tdivNat
  rw [if_pos h]

lemma tdivNat_neg_eq (a : Int) (b : Nat) (h : a < 0) :
    tdivNat a b = -(((-a).toNat / b : Nat) : Int) := by
  unfold tdivNat
  rw [if_neg (not_le.mpr h)]

lemma val_of_nonpos_scale (m s : Int) (h : s ≤ 0) :
    Dec.val ⟨m, s⟩ = ((m * 10 ^ (-s).toNat : ℤ) : ℚ) := by
  unfold Dec.val
  dsimp only
  push_cast
  congr 1
  rw [← zpow_natCast (10 : ℚ) ((-s).toNat)]
  congr 1
  omega

lemma val_of_pos_scale (m s : Int) (h : 0 < s) :
    Dec.val ⟨m, s⟩ = (m : ℚ) / ((10 ^ s.toNat : ℕ) : ℚ) := by
  unfold Dec.val
  dsimp only
  rw [div_eq_mul_inv]
  congr 1
  push_cast
  rw [← zpow_natCast (10 : ℚ) s.toNat, ← zpow_neg]
  congr 1
  omega

lemma val_nonneg_iff (d : Dec) : 0 ≤ Dec.val d ↔ 0 ≤ d.m := by
  unfold Dec.val
  have hp : (0 : ℚ) < (10 : ℚ) ^ (-d.s) := zpow_pos (by norm_num) _
  constructor
  · intro h
    by_contra hm
    push_neg at hm
    have hq : ((d.m : ℚ)) < 0 := by exact_mod_cast hm
    nlinarith
  · intro h
    have hq : (0 : ℚ) ≤ (d.m : ℚ) := by exact_mod_cast h
    exact mul_nonneg hq (le_of_lt hp)

lemma val_neg_iff (d : Dec) : Dec.val d < 0 ↔ d.m < 0 := by
  simp only [← not_le]
  exact not_congr (val_nonneg_iff d)

lemma valMulPow (d : Dec) (k : Int) (h : d.s ≤ k) :
    Dec.val d * (10 : ℚ) ^ k = (d.m : ℚ) * (10 : ℚ) ^ ((k - d.s).toNat) := by
  unfold Dec.val
  rw [mul_assoc, ← zpow_add₀ (by norm_num : (10 : ℚ) ≠ 0)]
  rw [← zpow_natCast (10 : ℚ) ((k - d.s).toNat)]
  congr 1
  congr 1
  omega

/-- The model Dec.numEq coincides with equality of rational values: it really
is numeric equality. -/
lemma numEq_iff_val (a b : Dec) : Dec.numEq a b ↔ Dec.val a = Dec.val b := by
  have hpow : (10 : ℚ) ^ (max a.s b.s) ≠ 0 := zpow_ne_zero _ (by norm_num)
  have ha := valMulPow a (max a.s b.s) (le_max_left _ _)
  have hb := valMulPow b (max a.s b.s) (le_max_right _ _)
  constructor
  · intro h
    have hq : (a.m : ℚ) * (10 : ℚ) ^ ((max a.s b.s - a.s).toNat) =
        (b.m : ℚ) * (10 : ℚ) ^ ((max a.s b.s - b.s).toNat) := by
      exact_mod_cast congrArg (fun z : ℤ => (z : ℚ)) h
    have h2 : Dec.val a * (10 : ℚ) ^ (max a.s b.s) =
        Dec.val b * (10 : ℚ) ^ (max a.s b.s) := by
      rw [ha, hb]
      exact hq
    exact mul_right_cancel₀ hpow h2
  · intro h
    have hq : (a.m : ℚ) * (10 : ℚ) ^ ((max a.s b.s - a.s).toNat) =
        (b.m : ℚ) * (10 : ℚ) ^ ((max a.s b.s - b.s).toNat) := by
      rw [← ha, ← hb, h]
    unfold Dec.numEq
    exact_mod_cast hq

/-- Dec.trunc is truncation toward zero of the decimal's value: it is the
floor for nonnegative values and the ceiling for negative ones. -/
lemma trunc_toward_zero (d : Dec) :
    (0 ≤ Dec.val d → ((Dec.trunc d : ℚ) ≤ Dec.val d ∧ Dec.val d < Dec.trunc d + 1)) ∧
    (Dec.val d < 0 → (Dec.val d ≤ (Dec.trunc d : ℚ) ∧ (Dec.trunc d : ℚ) < Dec.val d + 1)) := by
  obtain ⟨dm, ds⟩ := d
  by_cases hs : ds ≤ 0
  · rw [trunc_int_scale dm ds hs, val_of_nonpos_scale dm ds hs]
    exact ⟨fun _ => ⟨le_refl _, lt_add_one _⟩, fun _ => ⟨le_refl _, lt_add_one _⟩⟩
  · push_neg at hs
    have hBpos : 0 < 10 ^ ds.toNat := pow_pos (by norm_num) _
    have hBQ : (0 : ℚ) < ((10 ^ ds.toNat : ℕ) : ℚ) := by exact_mod_cast hBpos
    rw [trunc_frac_scale dm ds hs, val_of_pos_scale dm ds hs]
    by_cases hm : 0 ≤ dm
    · rw [tdivNat_nonneg_eq dm _ hm]
      have hdm : ((dm.toNat : ℕ) : ℚ) = (dm : ℚ) := by
        exact_mod_cast Int.toNat_of_nonneg hm
      have h1 : ((dm.toNat / 10 ^ ds.toNat : ℕ) : ℚ) * ((10 ^ ds.toNat : ℕ) : ℚ) ≤
          ((dm.toNat : ℕ) : ℚ) := by
        exact_mod_cast Nat.div_mul_le_self dm.toNat (10 ^ ds.toNat)
      have h2 : ((dm.toNat : ℕ) : ℚ) <
          (((dm.toNat / 10 ^ ds.toNat : ℕ) : ℚ) + 1) * ((10 ^ ds.toNat : ℕ) : ℚ) := by
        exact_mod_cast natLtDivSuccMul dm.toNat (10 ^ ds.toNat) hBpos
      constructor
      · intro h0
        constructor
        · rw [Int.cast_natCast, le_div_iff₀ hBQ, ← hdm]
          exact h1
        · rw [Int.cast_natCast, div_lt_iff₀ hBQ, ← hdm]
          exact h2
      · intro hneg
        exfalso
        have hnn : (0 : ℚ) ≤ (dm : ℚ) / ((10 ^ ds.toNat : ℕ) : ℚ) :=
          div_nonneg (by exact_mod_cast hm) (le_of_lt hBQ)
        linarith
    · push_neg at hm
      rw [tdivNat_neg_eq dm _ hm]
      have hdm : (((-dm).toNat : ℕ) : ℚ) = -(dm : ℚ) := by
        exact_mod_cast Int.toNat_of_nonneg (by omega : (0 : Int) ≤ -dm)
      have hdm' : (dm : ℚ) = -(((-dm).toNat : ℕ) : ℚ) := by linarith [hdm]
      have h1 : (((-dm).toNat / 10 ^ ds.toNat : ℕ) : ℚ) * ((10 ^ ds.toNat : ℕ) : ℚ) ≤
          (((-dm).toNat : ℕ) : ℚ) := by
        exact_mod_cast Nat.div_mul_le_self (-dm).toNat (10 ^ ds.toNat)
      have h2 : (((-dm).toNat : ℕ) : ℚ) <
          ((((-dm).toNat / 10 ^ ds.toNat : ℕ) : ℚ) + 1) * ((10 ^ ds.toNat : ℕ) : ℚ) := by
        exact_mod_cast natLtDivSuccMul (-dm).toNat (10 ^ ds.toNat) hBpos
      constructor
      · intro h0
        exfalso
        have hlt : (dm : ℚ) / ((10 ^ ds.toNat : ℕ) : ℚ) < 0 :=
          div_neg_of_neg_of_pos (by exact_mod_cast hm) hBQ
        linarith
      · intro hneg
        constructor
        · rw [Int.cast_neg, Int.cast_natCast, div_le_iff₀ hBQ]
          have expand : -((((-dm).toNat / 10 ^ ds.toNat : ℕ) : ℚ)) * ((10 ^ ds.toNat : ℕ) : ℚ) =
              -(((((-dm).toNat / 10 ^ ds.toNat : ℕ) : ℚ)) * ((10 ^ ds.toNat : ℕ) : ℚ)) := by
            ring
          rw [expand, hdm']
          exact neg_le_neg h1
        · rw [Int.cast_neg, Int.cast_natCast]
          have step : (-((((-dm).toNat / 10 ^ ds.toNat : ℕ) : ℚ)) - 1) <
              (dm : ℚ) / ((10 ^ ds.toNat : ℕ) : ℚ) := by
            rw [lt_div_iff₀ hBQ]
            have expand : (-((((-dm).toNat / 10 ^ ds.toNat : ℕ) : ℚ)) - 1) *
                ((10 ^ ds.toNat : ℕ) : ℚ) =
                -((((((-dm).toNat / 10 ^ ds.toNat : ℕ) : ℚ)) + 1) *
                  ((10 ^ ds.toNat : ℕ) : ℚ)) := by
              ring
            rw [expand, hdm']
            exact neg_lt_neg h2
          linarith [step]

/-! Claim theorems. -/

/-- C9: for each of the four arithmetic operators, a deferred-expression
placeholder as right operand makes the operation return that placeholder's
corresponding reflected operator applied with the Money value as right-hand
operand; no currency check, no conversion (the hook-invocation record is
false and the result does not depend on the configuration or the hook), and
no evaluation of the placeholder (it is carried opaquely into the result). -/
theorem c9_deferred_delegation (cfg : Settings) (hook : Money → Currency → Money)
    (self : Money) (f : FExpr) :
    Money.add cfg hook self (.f f) = (.ok (.deferred (.radd f self)), false) ∧
    Money.sub cfg hook self (.f f) = (.ok (.deferred (.rsub f self)), false) ∧
    Money.mul self (.f f) = .deferred (.rmul f self) ∧
    Money.truediv self (.f f) = .deferred (.rtruediv f self) :=
  ⟨rfl, rfl, rfl, rfl⟩

/-- C4 counterexample: with the auto-convert flag enabled, adding two Money
values of the same currency (USD and USD) does invoke the conversion hook,
although the claim says the hook is invoked only when the currencies
differ. -/
theorem c4_counterexample :
    (⟨⟨10, 0⟩, ⟨"USD"⟩, 2, 2⟩ : Money).currency = (⟨⟨5, 0⟩, ⟨"USD"⟩, 2, 2⟩ : Money).currency ∧
    (Money.add ⟨2, none, none, true⟩ (fun m _ => m)
        ⟨⟨10, 0⟩, ⟨"USD"⟩, 2, 2⟩ (.money ⟨⟨5, 0⟩, ⟨"USD"⟩, 2, 2⟩)).2 = true := by
  constructor
  · rfl
  · rfl

/-- C4 amended: for addition and subtraction of two Money operands the hook
is invoked exactly when the auto-convert flag is enabled, regardless of
whether the operands' currencies differ (the currency comparison happens
inside the hook, not in Money); for a deferred-expression operand the hook is
never invoked. -/
theorem c4_hook_invocation_amended (cfg : Settings) (hook : Money → Currency → Money)
    (self m : Money) (f : FExpr) :
    (Money.add cfg hook self (.money m)).2 = cfg.AUTO_CONVERT_MONEY ∧
    (Money.sub cfg hook self (.money m)).2 = cfg.AUTO_CONVERT_MONEY ∧
    (Money.add cfg hook self (.f f)).2 = false ∧
    (Money.sub cfg hook self (.f f)).2 = false := by
  obtain ⟨dp, am, dm, ac⟩ := cfg
  cases ac <;>
    simp [Money.add, Money.sub, maybe_convert]

/-- C5 counterexample: with the amount-precision mapping a dict that lacks
the code USD and the display mapping containing USD with override 5, the
resolved display_decimal_places is the class default 2, not the override 5
that the claimed amount-independent rule yields. -/
theorem c5_counterexample :
    (resolveDecimalPlaces 2 (some []) (some [("USD", 5)]) "USD").2 = 2 ∧
    displayResolutionClaim 2 (some [("USD", 5)]) "USD" = 5 ∧ (2 : Nat) ≠ 5 := by
  refine ⟨rfl, rfl, by decide⟩

/-- C5 amended: amount_decimal_places is resolved by the claimed
contains-then-default rule from its own mapping, and display_decimal_places
follows the claimed rule only when the amount lookup did not fail: when the
amount mapping is a dict without the currency's code, the shared exception
handler skips the display lookup and the class-level default is kept. -/
theorem c5_display_resolution_amended (dflt : Nat)
    (amountMap displayMap : Option (List (String × Nat))) (code : String) :
    (resolveDecimalPlaces dflt amountMap displayMap code).1 =
      (match amountMap with
        | some am => ((am.lookup code).getD dflt)
        | none => dflt) ∧
    (resolveDecimalPlaces dflt amountMap displayMap code).2 =
      (match amountMap with
        | some am =>
          if (am.lookup code).isSome then displayResolutionClaim dflt displayMap code
          else dflt
        | none => displayResolutionClaim dflt displayMap code) := by
  rcases amountMap with _ | am <;> rcases displayMap with _ | dm <;>
    simp only [resolveDecimalPlaces, displayResolutionClaim]
  · exact ⟨trivial, trivial⟩
  · cases hdm : dm.lookup code <;> simp [hdm]
  · cases ham : am.lookup code <;> simp [ham]
  · cases ham : am.lookup code <;> cases hdm : dm.lookup code <;> simp [ham, hdm]

/-- C6 counterexample: the case-normalized canonical tag of the locale fr_FR
is FR_FR and it is in the known-definitions table, but the code returns the
original-case tag fr_FR, not the case-normalized FR_FR the claim states. -/
theorem c6_counterexample :
    upper "fr_FR" = "FR_FR" ∧
    List.contains ["EN_US", "FR_FR"] (upper "fr_FR") = true ∧
    get_current_locale "fr_FR" ["EN_US", "FR_FR"] = "fr_FR" ∧
    localeResolutionClaim "fr_FR" ["EN_US", "FR_FR"] = "FR_FR" ∧
    ("fr_FR" : String) ≠ "FR_FR" := by
  refine ⟨by decide, by decide, by decide, by decide, by decide⟩

/-- C6 amended: locale resolution is a pure function of the canonical locale
tag and the known-definitions table: when the case-normalized tag is in the
table, the tag is returned in its original case (only the membership test is
case-normalized); otherwise the doubled-region uppercased variant is returned
when present; otherwise the empty no-locale result; with known definitions
EN_US and FR_FR, requesting fr resolves to FR_FR and de to the empty
result. -/
theorem c6_locale_resolution_amended (locale : String) (defs : List String) :
    (defs.contains (upper locale) = true → get_current_locale locale defs = locale) ∧
    (defs.contains (upper locale) = false →
      defs.contains (upper (locale ++ "_" ++ locale)) = true →
      get_current_locale locale defs = upper (locale ++ "_" ++ locale)) ∧
    (defs.contains (upper locale) = false →
      defs.contains (upper (locale ++ "_" ++ locale)) = false →
      get_current_locale locale defs = "") ∧
    get_current_locale "fr" ["EN_US", "FR_FR"] = "FR_FR" ∧
    get_current_locale "de" ["EN_US", "FR_FR"] = "" := by
  refine ⟨?_, ?_, ?_, by decide, by decide⟩
  · intro h1
    unfold get_current_locale
    rw [if_pos h1]
  · intro h1 h2
    unfold get_current_locale
    rw [if_neg (by rw [h1]; exact Bool.false_ne_true), if_pos h2]
  · intro h1 h2
    unfold get_current_locale
    rw [if_neg (by rw [h1]; exact Bool.false_ne_true),
      if_neg (by rw [h2]; exact Bool.false_ne_true)]

/-- C6 amended witness at the claim's own example: resolving fr against the
table holding EN_US and FR_FR goes through the doubled-region branch. -/
theorem c6_locale_resolution_amended_witness :
    get_current_locale "fr" ["EN_US", "FR_FR"] = upper ("fr" ++ "_" ++ "fr") :=
  (c6_locale_resolution_amended "fr" ["EN_US", "FR_FR"]).2.1 (by decide) (by decide)

lemma mkMoneyCore_amount (cfg : Settings) (a0 : Dec) (c : Currency) :
    (mkMoneyCore cfg a0 c).amount =
      if (resolveDecimalPlaces cfg.DECIMAL_PLACES cfg.DECIMAL_PLACES_PER_CURRENCY
          cfg.DISPLAY_DECIMAL_PLACES_PER_CURRENCY c.code).1 = 0
      then Dec.ofInt (Dec.trunc a0) else a0 := rfl

lemma mkMoneyCore_currency (cfg : Settings) (a0 : Dec) (c : Currency) :
    (mkMoneyCore cfg a0 c).currency = c := rfl

lemma mkMoneyCore_adp (cfg : Settings) (a0 : Dec) (c : Currency) :
    (mkMoneyCore cfg a0 c).amount_decimal_places =
      (resolveDecimalPlaces cfg.DECIMAL_PLACES cfg.DECIMAL_PLACES_PER_CURRENCY
        cfg.DISPLAY_DECIMAL_PLACES_PER_CURRENCY c.code).1 := rfl

lemma mkMoneyCore_ddp (cfg : Settings) (a0 : Dec) (c : Currency) :
    (mkMoneyCore cfg a0 c).display_decimal_places =
      (resolveDecimalPlaces cfg.DECIMAL_PLACES cfg.DECIMAL_PLACES_PER_CURRENCY
        cfg.DISPLAY_DECIMAL_PLACES_PER_CURRENCY c.code).2 := rfl

/-- C3: for every (normalized) amount input, a resolved amount_decimal_places
of 0 stores the input truncated toward zero to an integral value (floor of
the value when nonnegative, ceiling when negative, so 19.99 stores as 19 and
-19.99 as -19), and a nonzero resolved amount_decimal_places stores the input
unchanged, at its full precision. -/
theorem c3_zero_decimal_truncation (cfg : Settings) (c : Currency) (a : Dec) :
    ((mkMoneyCore cfg a c).amount_decimal_places = 0 →
      (mkMoneyCore cfg a c).amount = Dec.ofInt (Dec.trunc a) ∧
      (0 ≤ Dec.val a → ((Dec.trunc a : ℚ) ≤ Dec.val a ∧ Dec.val a < Dec.trunc a + 1)) ∧
      (Dec.val a < 0 → (Dec.val a ≤ (Dec.trunc a : ℚ) ∧ (Dec.trunc a : ℚ) < Dec.val a + 1))) ∧
    ((mkMoneyCore cfg a c).amount_decimal_places ≠ 0 →
      (mkMoneyCore cfg a c).amount = a) := by
  constructor
  · intro h
    have h0 : (resolveDecimalPlaces cfg.DECIMAL_PLACES cfg.DECIMAL_PLACES_PER_CURRENCY
        cfg.DISPLAY_DECIMAL_PLACES_PER_CURRENCY c.code).1 = 0 := (mkMoneyCore_adp cfg a c) ▸ h
    refine ⟨?_, (trunc_toward_zero a).1, (trunc_toward_zero a).2⟩
    rw [mkMoneyCore_amount, if_pos h0]
  · intro h
    have h0 : ¬ (resolveDecimalPlaces cfg.DECIMAL_PLACES cfg.DECIMAL_PLACES_PER_CURRENCY
        cfg.DISPLAY_DECIMAL_PLACES_PER_CURRENCY c.code).1 = 0 := (mkMoneyCore_adp cfg a c) ▸ h
    rw [mkMoneyCore_amount, if_neg h0]

/-- C3 witness: with JPY configured for 0 amount decimal places,
Money(Decimal 19.99, JPY) stores 19 (not 20) and Money(Decimal -19.99, JPY)
stores -19. -/
theorem c3_zero_decimal_truncation_witness :
    (mkMoneyCore ⟨2, some [("JPY", 0)], none, false⟩ ⟨1999, 2⟩ ⟨"JPY"⟩).amount = ⟨19, 0⟩ ∧
    (mkMoneyCore ⟨2, some [("JPY", 0)], none, false⟩ ⟨-1999, 2⟩ ⟨"JPY"⟩).amount = ⟨-19, 0⟩ := by
  constructor
  · exact (((c3_zero_decimal_truncation ⟨2, some [("JPY", 0)], none, false⟩
      ⟨"JPY"⟩ ⟨1999, 2⟩).1 (by decide)).1).trans (by decide)
  · exact (((c3_zero_decimal_truncation ⟨2, some [("JPY", 0)], none, false⟩
      ⟨"JPY"⟩ ⟨-1999, 2⟩).1 (by decide)).1).trans (by decide)

/-- C7: rounding is idempotent at a fixed digit count: round(round(m, n), n)
equals round(m, n) (as an identity of the whole resulting Money value); the
round produces a new Money whose currency is m's currency, whose precision
settings are re-resolved from the configuration and the currency (not copied
from m, whose own fields are arbitrary here), and whose amount is the
half-to-even rounding of m's amount to n fractional digits whenever the
re-resolved amount precision is nonzero (a zero precision additionally
truncates, as the constructor always does). -/
theorem c7_round_idempotent (cfg : Settings) (m : Money) (n : Int) :
    Money.round cfg (Money.round cfg m (some n)) (some n) = Money.round cfg m (some n) ∧
    (Money.round cfg m (some n)).currency = m.currency ∧
    (Money.round cfg m (some n)).amount_decimal_places =
      (resolveDecimalPlaces cfg.DECIMAL_PLACES cfg.DECIMAL_PLACES_PER_CURRENCY
        cfg.DISPLAY_DECIMAL_PLACES_PER_CURRENCY m.currency.code).1 ∧
    (Money.round cfg m (some n)).display_decimal_places =
      (resolveDecimalPlaces cfg.DECIMAL_PLACES cfg.DECIMAL_PLACES_PER_CURRENCY
        cfg.DISPLAY_DECIMAL_PLACES_PER_CURRENCY m.currency.code).2 ∧
    ((resolveDecimalPlaces cfg.DECIMAL_PLACES cfg.DECIMAL_PLACES_PER_CURRENCY
        cfg.DISPLAY_DECIMAL_PLACES_PER_CURRENCY m.currency.code).1 ≠ 0 →
      (Money.round cfg m (some n)).amount = Dec.roundHE m.amount n) := by
  refine ⟨?_, rfl, rfl, rfl, ?_⟩
  · show mkMoneyCore cfg (Dec.roundHE (Money.round cfg m (some n)).amount n)
        (Money.round cfg m (some n)).currency = Money.round cfg m (some n)
    have hcur : (Money.round cfg m (some n)).currency = m.currency := rfl
    rw [hcur]
    show mkMoneyCore cfg (Dec.roundHE (Money.round cfg m (some n)).amount n) m.currency =
      mkMoneyCore cfg (Dec.roundHE m.amount n) m.currency
    by_cases h0 : (resolveDecimalPlaces cfg.DECIMAL_PLACES cfg.DECIMAL_PLACES_PER_CURRENCY
        cfg.DISPLAY_DECIMAL_PLACES_PER_CURRENCY m.currency.code).1 = 0
    · have ham : (Money.round cfg m (some n)).amount =
          Dec.ofInt (Dec.trunc (Dec.roundHE m.amount n)) := by
        rw [show (Money.round cfg m (some n)).amount =
            (mkMoneyCore cfg (Dec.roundHE m.amount n) m.currency).amount from rfl]
        rw [mkMoneyCore_amount, if_pos h0]
      rw [ham]
      simp only [mkMoneyCore]
      rw [if_pos h0, if_pos h0]
      rw [trunc_roundHE_ofInt_trunc (Dec.roundHE m.amount n) n (roundHE_scale m.amount n)]
    · have ham : (Money.round cfg m (some n)).amount = Dec.roundHE m.amount n := by
        rw [show (Money.round cfg m (some n)).amount =
            (mkMoneyCore cfg (Dec.roundHE m.amount n) m.currency).amount from rfl]
        rw [mkMoneyCore_amount, if_neg h0]
      rw [ham, roundHE_idem]
  · intro h0
    rw [show (Money.round cfg m (some n)).amount =
        (mkMoneyCore cfg (Dec.roundHE m.amount n) m.currency).amount from rfl]
    rw [mkMoneyCore_amount, if_neg h0]

/-- C7 witness: rounding Money(2.345, USD) to 2 digits twice equals rounding
it once, and the rounded amount is 2.34 (half to even). -/
theorem c7_round_idempotent_witness :
    Money.round ⟨2, none, none, false⟩
        (Money.round ⟨2, none, none, false⟩ ⟨⟨2345, 3⟩, ⟨"USD"⟩, 2, 2⟩ (some 2)) (some 2) =
      Money.round ⟨2, none, none, false⟩ ⟨⟨2345, 3⟩, ⟨"USD"⟩, 2, 2⟩ (some 2) ∧
    (Money.round ⟨2, none, none, false⟩ ⟨⟨2345, 3⟩, ⟨"USD"⟩, 2, 2⟩ (some 2)).amount =
      ⟨234, 2⟩ := by
  constructor
  · exact (c7_round_idempotent ⟨2, none, none, false⟩ ⟨⟨2345, 3⟩, ⟨"USD"⟩, 2, 2⟩ 2).1
  · exact ((c7_round_idempotent ⟨2, none, none, false⟩ ⟨⟨2345, 3⟩, ⟨"USD"⟩, 2, 2⟩ 2).2.2.2.2
      (by decide)).trans (by decide)

/-- C8: no operation mutates its receiver: in the heap model, rounding the
Money object at address i (or adding or subtracting the objects at addresses
i and j) leaves every existing cell unchanged — in particular the receiver's
amount and currency are those it had before the operation; fresh results are
only ever allocated at new addresses. -/
theorem c8_no_mutation (cfg : Settings) (hook : Money → Currency → Money)
    (h : List Money) (i j k : Nat) (n : Option Int) (hk : k < h.length) :
    ((heapRound cfg h i n).1)[k]? = h[k]? ∧
    ((heapAdd cfg hook h i j).1)[k]? = h[k]? ∧
    ((heapSub cfg hook h i j).1)[k]? = h[k]? := by
  have hpres : ∀ x : Money, (h ++ [x])[k]? = h[k]? := fun x => List.getElem?_append_left hk
  refine ⟨?_, ?_, ?_⟩
  · unfold heapRound
    cases h[i]? <;> simp [heapAlloc, hpres]
  · unfold heapAdd
    split
    · split
      · simp [heapAlloc, hpres]
      · simp
    · simp
  · unfold heapSub
    split
    · split
      · simp [heapAlloc, hpres]
      · simp
    · simp

/-- C8 witness: on the one-cell heap holding Money(2.345, USD), rounding and
(self-)adding and subtracting leave cell 0 unchanged. -/
theorem c8_no_mutation_witness :
    ((heapRound ⟨2, none, none, false⟩ [⟨⟨2345, 3⟩, ⟨"USD"⟩, 2, 2⟩] 0 (some 2)).1)[0]? =
      [(⟨⟨2345, 3⟩, ⟨"USD"⟩, 2, 2⟩ : Money)][0]? ∧
    ((heapAdd ⟨2, none, none, false⟩ (fun m _ => m) [⟨⟨2345, 3⟩, ⟨"USD"⟩, 2, 2⟩] 0 0).1)[0]? =
      [(⟨⟨2345, 3⟩, ⟨"USD"⟩, 2, 2⟩ : Money)][0]? ∧
    ((heapSub ⟨2, none, none, false⟩ (fun m _ => m) [⟨⟨2345, 3⟩, ⟨"USD"⟩, 2, 2⟩] 0 0).1)[0]? =
      [(⟨⟨2345, 3⟩, ⟨"USD"⟩, 2, 2⟩ : Money)][0]? :=
  c8_no_mutation ⟨2, none, none, false⟩ (fun m _ => m)
    [⟨⟨2345, 3⟩, ⟨"USD"⟩, 2, 2⟩] 0 0 0 (some 2) (by decide)

/-- C1: with the auto-convert flag disabled, adding or subtracting Money of a
different currency yields the currency-mismatch error (and no Money value);
with the flag enabled and the hook mapping the right operand to a Money in
the left operand's currency, the addition returns the Money built by the
constructor from the summed amount in the left operand's currency, whose
currency is the left operand's and whose amount is the exact sum whenever the
resolved amount precision is nonzero. -/
theorem c1_currency_mismatch_auto_convert (cfg : Settings)
    (hook : Money → Currency → Money) (a b : Money) :
    (cfg.AUTO_CONVERT_MONEY = false → a.currency ≠ b.currency →
      Money.add cfg hook a (.money b) = (.error .currencyMismatch, false) ∧
      Money.sub cfg hook a (.money b) = (.error .currencyMismatch, false)) ∧
    (cfg.AUTO_CONVERT_MONEY = true → (hook b a.currency).currency = a.currency →
      Money.add cfg hook a (.money b) =
        (.ok (.money (mkMoneyCore cfg (Dec.add a.amount (hook b a.currency).amount)
          a.currency)), true) ∧
      (mkMoneyCore cfg (Dec.add a.amount (hook b a.currency).amount) a.currency).currency =
        a.currency ∧
      ((resolveDecimalPlaces cfg.DECIMAL_PLACES cfg.DECIMAL_PLACES_PER_CURRENCY
          cfg.DISPLAY_DECIMAL_PLACES_PER_CURRENCY a.currency.code).1 ≠ 0 →
        (mkMoneyCore cfg (Dec.add a.amount (hook b a.currency).amount) a.currency).amount =
          Dec.add a.amount (hook b a.currency).amount)) := by
  constructor
  · intro hflag hcur
    constructor
    · simp only [Money.add, maybe_convert, hflag, defaultMoneyAdd]
      simp [hcur, Except.map]
    · simp only [Money.sub, maybe_convert, hflag, defaultMoneySub]
      simp [hcur, Except.map]
  · intro hflag hhook
    refine ⟨?_, rfl, ?_⟩
    · simp only [Money.add, maybe_convert, hflag, defaultMoneyAdd]
      simp [hhook, Except.map]
    · intro hdp
      rw [mkMoneyCore_amount, if_neg hdp]

/-- C1 witness: Money(10, USD) + Money(10, EUR) is the currency-mismatch
error with auto-convert disabled, and Money(19, USD) with auto-convert
enabled and a hook returning Money(9, USD) for the EUR operand. -/
theorem c1_currency_mismatch_auto_convert_witness :
    (Money.add ⟨2, none, none, false⟩ (fun _ _ => ⟨⟨9, 0⟩, ⟨"USD"⟩, 2, 2⟩)
        ⟨⟨10, 0⟩, ⟨"USD"⟩, 2, 2⟩ (.money ⟨⟨10, 0⟩, ⟨"EUR"⟩, 2, 2⟩)) =
      (.error .currencyMismatch, false) ∧
    (Money.add ⟨2, none, none, true⟩ (fun _ _ => ⟨⟨9, 0⟩, ⟨"USD"⟩, 2, 2⟩)
        ⟨⟨10, 0⟩, ⟨"USD"⟩, 2, 2⟩ (.money ⟨⟨10, 0⟩, ⟨"EUR"⟩, 2, 2⟩)) =
      (.ok (.money ⟨⟨19, 0⟩, ⟨"USD"⟩, 2, 2⟩), true) := by
  constructor
  · exact ((c1_currency_mismatch_auto_convert ⟨2, none, none, false⟩
      (fun _ _ => ⟨⟨9, 0⟩, ⟨"USD"⟩, 2, 2⟩) ⟨⟨10, 0⟩, ⟨"USD"⟩, 2, 2⟩
      ⟨⟨10, 0⟩, ⟨"EUR"⟩, 2, 2⟩).1 rfl (by decide)).1
  · exact (((c1_currency_mismatch_auto_convert ⟨2, none, none, true⟩
      (fun _ _ => ⟨⟨9, 0⟩, ⟨"USD"⟩, 2, 2⟩) ⟨⟨10, 0⟩, ⟨"USD"⟩, 2, 2⟩
      ⟨⟨10, 0⟩, ⟨"EUR"⟩, 2, 2⟩).2 rfl (by decide)).1).trans (by decide)

/-- C10: constructing Money with no arguments uses the Python defaults:
the fixed sentinel currency code XYZ (resolved in the registry, which holds
it) and the amount Decimal 0.0, numerically zero whatever precision the
configuration resolves. -/
theorem c10_default_construction (cfg : Settings) (registry : List String)
    (hreg : registry.contains "XYZ" = true) :
    mkMoney cfg registry defaultAmount defaultCurrency =
      .ok (mkMoneyCore cfg ⟨0, 1⟩ ⟨"XYZ"⟩) ∧
    (mkMoneyCore cfg ⟨0, 1⟩ ⟨"XYZ"⟩).currency.code = "XYZ" ∧
    Dec.numEq (mkMoneyCore cfg ⟨0, 1⟩ ⟨"XYZ"⟩).amount ⟨0, 1⟩ := by
  refine ⟨?_, rfl, ?_⟩
  · have hup : upper DEFAULT_CURRENCY_CODE = "XYZ" := by decide
    simp only [mkMoney, defaultCurrency, defaultAmount, decOfAmount, get_currency, hup, hreg]
    simp
  · by_cases h0 : (resolveDecimalPlaces cfg.DECIMAL_PLACES cfg.DECIMAL_PLACES_PER_CURRENCY
        cfg.DISPLAY_DECIMAL_PLACES_PER_CURRENCY (Currency.code ⟨"XYZ"⟩)).1 = 0
    · rw [mkMoneyCore_amount, if_pos h0]
      decide
    · rw [mkMoneyCore_amount, if_neg h0]
      decide

/-- C10 witness at a concrete configuration and registry. -/
theorem c10_default_construction_witness :
    mkMoney ⟨2, none, none, false⟩ ["XYZ"] defaultAmount defaultCurrency =
      .ok (mkMoneyCore ⟨2, none, none, false⟩ ⟨0, 1⟩ ⟨"XYZ"⟩) ∧
    (mkMoneyCore ⟨2, none, none, false⟩ ⟨0, 1⟩ ⟨"XYZ"⟩).currency.code = "XYZ" ∧
    Dec.numEq (mkMoneyCore ⟨2, none, none, false⟩ ⟨0, 1⟩ ⟨"XYZ"⟩).amount ⟨0, 1⟩ :=
  c10_default_construction ⟨2, none, none, false⟩ ["XYZ"] (by decide)

end DjMoney
